import Mathlib

/-!
Shallow embedding of the `2minwrapper` NYC chatbot repository.

The repository has two entry points: a terminal loop (`nyc_chat.py`) and a
Streamlit UI (`nyc_chat_streamlit.py`).  Both keep an ordered list of
role-tagged messages whose first element is a fixed system/persona message,
append user and assistant messages, trim the history past a length threshold
(T=20, K=18 for the CLI; T=40, K=38 for the UI), and support a reset that
restores the single system message.  The UI additionally has a borough quiz
that tallies answer labels and picks the label of maximum count.

The body of the persona prompt is irrelevant to every property below, so the
system-prompt text is a parameter `sp` throughout.  Python's `str.strip`,
`str.lower` and `str.startswith` are modelled over the character list of the
string (for the ASCII inputs the chat commands use, this coincides with
Python's Unicode-aware versions).
-/

/-- A chat message: Python's `{"role": ..., "content": ...}` dict. -/
structure Message where
  role : String
  content : String
deriving DecidableEq, Repr

/-- The fixed system/persona message (prompt text abstracted as `sp`). -/
def systemMessage (sp : String) : Message := ⟨"system", sp⟩

/-- Model of Python `str.strip()`: drop whitespace from both ends. -/
def pyStrip (s : String) : String :=
  ⟨((s.data.dropWhile Char.isWhitespace).reverse.dropWhile Char.isWhitespace).reverse⟩

/-- Model of Python `str.lower()` (ASCII case folding). -/
def pyLower (s : String) : String := ⟨s.data.map Char.toLower⟩

/-- Model of Python `s.startswith(p)`. -/
def pyStartswith (s p : String) : Bool := p.data.isPrefixOf s.data

/-- History trimming, `if len(messages) > T: messages = [messages[0]] + messages[-K:]`
(CLI: `nyc_chat.py` lines 130-131 with T=20, K=18; UI: `nyc_chat_streamlit.py`
lines 262-263 with T=40, K=38). -/
def trimMessages (T K : Nat) (messages : List Message) : List Message :=
  if T < messages.length then messages.take 1 ++ messages.drop (messages.length - K)
  else messages

/-- Outcome of the external chat-completion call in the CLI variant:
either a reply or an `openai.OpenAIError`. -/
inductive ApiResult where
  | success (reply : String)
  | failure
deriving DecidableEq, Repr

/-- Result of one iteration of the CLI loop body: the updated message list,
whether the loop was left (`break`), and whether the external API was called. -/
structure CliStepResult where
  messages : List Message
  exited : Bool
  apiCalled : Bool
deriving DecidableEq, Repr

/-- The CLI exit commands, `{"/exit", "/quit", "/q"}` (`nyc_chat.py` line 103). -/
def exitCommands : List String := ["/exit", "/quit", "/q"]

/-- One iteration of the CLI loop body (`nyc_chat.py` lines 96-131) on a read
line `raw`: strip it; skip empty input; exit commands break; `/reset...`
restores the system message; otherwise append the user message, and on API
failure pop it back off, on success append the stripped reply and trim. -/
def cliStep (sp raw : String) (api : ApiResult) (messages : List Message) : CliStepResult :=
  let user_input := pyStrip raw
  if user_input = "" then ⟨messages, false, false⟩
  else if pyLower user_input ∈ exitCommands then ⟨messages, true, false⟩
  else if pyStartswith (pyLower user_input) "/reset" then ⟨[systemMessage sp], false, false⟩
  else
    let withUser := messages ++ [⟨"user", user_input⟩]
    match api with
    | .failure => ⟨withUser.dropLast, false, true⟩
    | .success reply => ⟨trimMessages 20 18 (withUser ++ [⟨"assistant", pyStrip reply⟩]), false, true⟩

/-- The token filter of `stream_llm_response` (`nyc_chat_streamlit.py` lines
176-179): each chunk's `delta.content` is an optional string, and only truthy
(non-`None`, non-empty) contents are yielded, in order. -/
def streamYield (chunks : List (Option String)) : List String :=
  chunks.filterMap fun c =>
    match c with
    | some s => if s = "" then none else some s
    | none => none

/-- Outcome of the streaming call in the UI variant: the full chunk sequence,
or an exception (there is no `try`/`except` in `_run_chat`). -/
inductive UiApiResult where
  | success (chunks : List (Option String))
  | failure (partialChunks : List (Option String))

/-- One chat turn of the UI variant (`_run_chat`, `nyc_chat_streamlit.py`
lines 249-263) on a non-empty `prompt`: append the user message; on success
accumulate the streamed tokens with `answer_accum += token`, append the
assistant message and trim; on an exception the turn aborts with the user
message still in the session state (no handler exists). -/
def uiStep (prompt : String) (api : UiApiResult) (messages : List Message) : List Message :=
  let withUser := messages ++ [⟨"user", prompt⟩]
  match api with
  | .failure _ => withUser
  | .success chunks =>
    let answer_accum := (streamYield chunks).foldl (fun acc tok => acc ++ tok) ""
    trimMessages 40 38 (withUser ++ [⟨"assistant", answer_accum⟩])

/-- The UI "Reset conversation" button handler (`nyc_chat_streamlit.py`
lines 290): replace the session messages with the system message alone. -/
def uiReset (sp : String) : List Message := [systemMessage sp]

/-- Conversation states reachable in the CLI variant: the initial state
`[system message]` followed by any number of loop iterations. -/
inductive ReachableCli (sp : String) : List Message → Prop where
  | init : ReachableCli sp [systemMessage sp]
  | step (raw : String) (api : ApiResult) {ms : List Message} :
      ReachableCli sp ms → ReachableCli sp (cliStep sp raw api ms).messages

/-- Conversation states reachable in the UI variant: the initial session
state, chat turns, and the reset button. -/
inductive ReachableUi (sp : String) : List Message → Prop where
  | init : ReachableUi sp [systemMessage sp]
  | step (prompt : String) (api : UiApiResult) {ms : List Message} :
      ReachableUi sp ms → ReachableUi sp (uiStep prompt api ms)
  | reset {ms : List Message} : ReachableUi sp ms → ReachableUi sp (uiReset sp)

/-- A quiz question: `{"text": ..., "options": [(option text, borough), ...]}`. -/
structure Question where
  text : String
  options : List (String × String)
deriving DecidableEq, Repr

/-- The fixed quiz table `QUESTIONS` (`nyc_chat_streamlit.py` lines 40-81). -/
def QUESTIONS : List Question := [
  ⟨"Your ideal weekend pace?", [
    ("Non-stop action, events, and seeing it all.", "Manhattan"),
    ("Exploring cool new spots, art, and unique eats.", "Brooklyn"),
    ("Relaxing with family/friends, maybe a park or diverse food.", "Queens"),
    ("Connecting with the community, local vibes, keeping it real.", "Bronx"),
    ("Chilling at home, quiet, prefer my own space.", "Staten Island")]⟩,
  ⟨"When you think \x27NYC food,\x27 what\x27s your first craving?", [
    ("A fancy meal or the latest trendy restaurant.", "Manhattan"),
    ("Artisanal anything or a cult-favorite food truck.", "Brooklyn"),
    ("Authentic global cuisine from a hidden gem.", "Queens"),
    ("A classic slice or a hearty hero from the corner spot.", "Bronx"),
    ("A good home-cooked meal or reliable local takeout.", "Staten Island")]⟩,
  ⟨"How do you feel about crowds?", [
    ("Energizing! The more, the merrier.", "Manhattan"),
    ("Okay in specific doses, like a cool concert or market.", "Brooklyn"),
    ("I prefer spaces where I can breathe, but I can handle them.", "Queens"),
    ("Depends on the vibe ‚Äì a block party is different from Times Square.", "Bronx"),
    ("Honestly, I\x27d rather avoid them.", "Staten Island")]⟩,
  ⟨"Your style is best described as:", [
    ("Polished, ambitious, always on-trend or classic.", "Manhattan"),
    ("Unique, vintage, expressive, maybe a little edgy.", "Brooklyn"),
    ("Comfortable, practical, but with personal flair.", "Queens"),
    ("Streetwise, confident, true to myself.", "Bronx"),
    ("Laid-back, casual, no-fuss.", "Staten Island")]⟩]

/-- The insertion-ordered dict `BOROUGH_DESCRIPTIONS` (`nyc_chat_streamlit.py`
lines 83-89), modelled as an association list in insertion order. -/
def BOROUGH_DESCRIPTIONS : List (String × String) := [
  ("Manhattan", "You\x27re always on the move and know where the action is. Ambitious, polished, and unfazed by the hustle."),
  ("Brooklyn", "You\x27ve got an artistic soul and a love for authenticity‚Äîfrom pour-over coffee to underground shows."),
  ("Queens", "Diverse, laid-back, and adventurous with food. You appreciate community and comfort in equal measure."),
  ("Bronx", "Street-smart, loyal, and full of heart. You keep it real and value local vibes over tourist traps."),
  ("Staten Island", "Chill, independent, and a fan of breathing room. You know the value of a good view and some quiet.")]

/-- The borough labels, in the table's iteration (insertion) order. -/
def boroughs : List String := BOROUGH_DESCRIPTIONS.map Prod.fst

/-- The per-answer lookup
`next(b for text, b in QUESTIONS[qi]["options"] if text == answer_text)`
(`nyc_chat_streamlit.py` line 159); `none` models the `StopIteration` /
`IndexError` failure cases. -/
def lookupBorough (qi : Nat) (answer_text : String) : Option String :=
  ((QUESTIONS.getD qi ⟨"", []⟩).options.find? fun p => decide (p.1 = answer_text)).map Prod.snd

/-- The dict update `scores[borough] += 1` on an association list. -/
def bump (scores : List (String × Nat)) (b : String) : List (String × Nat) :=
  scores.map fun p => if p.1 = b then (p.1, p.2 + 1) else p

/-- The scoring loop of `run_quiz` (`nyc_chat_streamlit.py` lines 158-160):
for each answer (question index `qi` onwards) look its borough up and bump
that borough's score; `none` models a raised `StopIteration` (no matching
option) or `KeyError` (label not a key of the score dict). -/
def scoreAnswers : Nat → List String → List (String × Nat) → Option (List (String × Nat))
  | _, [], scores => some scores
  | qi, a :: rest, scores =>
    match lookupBorough qi a with
    | none => none
    | some b =>
      if scores.any (fun p => decide (p.1 = b)) then scoreAnswers (qi + 1) rest (bump scores b)
      else none

/-- Python's `max(scores, key=scores.get)` over an insertion-ordered dict:
fold keeping the current best, replaced only on a strictly greater value, so
the first key attaining the maximum wins. -/
def pickMax (best q : String × Nat) : String × Nat := if best.2 < q.2 then q else best

/-- `max(scores, key=scores.get)` (`nyc_chat_streamlit.py` line 161);
`none` models the `ValueError` on an empty dict. -/
def argmaxFirst : List (String × Nat) → Option String
  | [] => none
  | p :: ps => some ((ps.foldl pickMax p).1)

/-- The whole quiz scorer: initialise `scores = {b: 0 for b in BOROUGH_DESCRIPTIONS}`,
run the tally loop, then take `max(scores, key=scores.get)`. -/
def quizResult (answers : List String) : Option String :=
  match scoreAnswers 0 answers (BOROUGH_DESCRIPTIONS.map fun p => (p.1, 0)) with
  | none => none
  | some scores => argmaxFirst scores

/-- The borough labels the answers map to (the same lookup `run_quiz` uses),
question `qi` onwards. -/
def labelsFrom : Nat → List String → Option (List String)
  | _, [] => some []
  | qi, a :: rest =>
    match lookupBorough qi a, labelsFrom (qi + 1) rest with
    | some b, some bs => some (b :: bs)
    | _, _ => none

/-- The borough labels an answer list maps to. -/
def labelsOf (answers : List String) : Option (List String) := labelsFrom 0 answers

/-- "Each answer is an option text of its question", question `qi` onwards. -/
def validFrom : Nat → List String → Bool
  | _, [] => true
  | qi, a :: rest =>
    ((QUESTIONS.getD qi ⟨"", []⟩).options.any fun p => decide (p.1 = a)) && validFrom (qi + 1) rest

/-- The maximum tally any borough label receives. -/
def maxCount (labels : List String) : Nat := (boroughs.map fun b => labels.count b).foldl max 0

/-- The result-description lookup `BOROUGH_DESCRIPTIONS[borough]`
(`nyc_chat_streamlit.py` line 116); `none` models a `KeyError`. -/
def boroughDescription (b : String) : Option String :=
  (BOROUGH_DESCRIPTIONS.find? fun p => decide (p.1 = b)).map Prod.snd

example : pyStrip "  hello " = "hello" := by decide

example : pyStartswith (pyLower (pyStrip "/Reset now")) "/reset" = true := by decide

example : pyLower (pyStrip " /Quit") ∈ exitCommands := by decide

example : quizResult ["Non-stop action, events, and seeing it all.",
  "A fancy meal or the latest trendy restaurant.",
  "Okay in specific doses, like a cool concert or market."] = some "Manhattan" := by decide

/-! ## Trimming -/

lemma trimMessages_long (T K : Nat) (hK : K ≤ T) (ms : List Message) (h : T < ms.length) :
    trimMessages T K ms = ms.take 1 ++ ms.drop (ms.length - K) ∧
    (trimMessages T K ms).length = K + 1 ∧
    (trimMessages T K ms).head? = ms.head? := by
  have h1 : trimMessages T K ms = ms.take 1 ++ ms.drop (ms.length - K) := by
    rw [trimMessages, if_pos h]
  refine ⟨h1, ?_, ?_⟩
  · rw [h1, List.length_append, List.length_take, List.length_drop]
    have hm : min 1 ms.length = 1 := by omega
    omega
  · cases ms with
    | nil => simp at h
    | cons m tl => rw [h1]; simp

/-- **C1**: if the conversation length exceeds the threshold (T=20 CLI, T=40 UI),
the trim step replaces it with the first element followed by the last K elements
(K=18 CLI, K=38 UI), so the length is at most K+1 and element 0 is unchanged;
a conversation of length at most T is left unchanged. -/
theorem trim_window (ms : List Message) :
    (20 < ms.length →
      trimMessages 20 18 ms = ms.take 1 ++ ms.drop (ms.length - 18) ∧
      (trimMessages 20 18 ms).length ≤ 19 ∧
      (trimMessages 20 18 ms).head? = ms.head?) ∧
    (ms.length ≤ 20 → trimMessages 20 18 ms = ms) ∧
    (40 < ms.length →
      trimMessages 40 38 ms = ms.take 1 ++ ms.drop (ms.length - 38) ∧
      (trimMessages 40 38 ms).length ≤ 39 ∧
      (trimMessages 40 38 ms).head? = ms.head?) ∧
    (ms.length ≤ 40 → trimMessages 40 38 ms = ms) := by
  refine ⟨fun h => ?_, fun h => ?_, fun h => ?_, fun h => ?_⟩
  · obtain ⟨h1, h2, h3⟩ := trimMessages_long 20 18 (by omega) ms h
    exact ⟨h1, by omega, h3⟩
  · rw [trimMessages, if_neg (by omega)]
  · obtain ⟨h1, h2, h3⟩ := trimMessages_long 40 38 (by omega) ms h
    exact ⟨h1, by omega, h3⟩
  · rw [trimMessages, if_neg (by omega)]

theorem trim_window_witness :
    (trimMessages 20 18 (List.replicate 41 (⟨"user", "x"⟩ : Message))).length ≤ 19 ∧
    trimMessages 20 18 [systemMessage "p"] = [systemMessage "p"] ∧
    (trimMessages 40 38 (List.replicate 41 (⟨"user", "x"⟩ : Message))).length ≤ 39 ∧
    trimMessages 40 38 [systemMessage "p"] = [systemMessage "p"] :=
  ⟨((trim_window _).1 (by decide)).2.1,
   (trim_window _).2.1 (by decide),
   (((trim_window _).2.2).1 (by decide)).2.1,
   ((trim_window _).2.2).2 (by decide)⟩

/-! ## CLI command dispatch -/

lemma pyStrip_of_startswith_reset (raw : String) (h : pyStartswith raw "/reset" = true) :
    ∃ s, pyStrip raw = ⟨"/reset".data ++ s⟩ := by
  obtain ⟨t, ht⟩ := List.isPrefixOf_iff_prefix.mp h
  unfold pyStrip
  rw [← ht, List.dropWhile_append]
  have hdw : List.dropWhile Char.isWhitespace "/reset".data = "/reset".data := by decide
  rw [hdw, if_neg (by decide), List.reverse_append, List.dropWhile_append]
  by_cases hE : (List.dropWhile Char.isWhitespace t.reverse).isEmpty = true
  · rw [if_pos hE]
    have hdw2 : List.dropWhile Char.isWhitespace "/reset".data.reverse = "/reset".data.reverse := by
      decide
    rw [hdw2, List.reverse_reverse]
    exact ⟨[], by simp⟩
  · rw [if_neg hE, List.reverse_append, List.reverse_reverse]
    exact ⟨(List.dropWhile Char.isWhitespace t.reverse).reverse, rfl⟩

lemma pyLower_reset (u : List Char) :
    pyLower ⟨"/reset".data ++ u⟩ = ⟨"/reset".data ++ u.map Char.toLower⟩ := by
  unfold pyLower
  have hmap : ("/reset".data).map Char.toLower = "/reset".data := by decide
  show (⟨("/reset".data ++ u).map Char.toLower⟩ : String) = _
  rw [List.map_append, hmap]

lemma cliStep_reset_branch (sp raw : String) (api : ApiResult) (ms : List Message)
    (h : pyStartswith (pyLower (pyStrip raw)) "/reset" = true) :
    cliStep sp raw api ms = ⟨[systemMessage sp], false, false⟩ := by
  have hne : pyStrip raw ≠ "" := by
    intro h0
    rw [h0] at h
    exact absurd h (by decide)
  have hnx : pyLower (pyStrip raw) ∉ exitCommands := by
    intro hx
    simp only [exitCommands, List.mem_cons, List.not_mem_nil, or_false] at hx
    rcases hx with hx | hx | hx <;> rw [hx] at h <;> exact absurd h (by decide)
  simp [cliStep, hne, hnx, h]

/-- **C7**: a CLI input whose stripped text is (case-insensitively) one of
`/exit`, `/quit`, `/q` terminates the loop without modifying the conversation;
an input beginning with `/reset` clears the history to the system message and
the loop continues. -/
theorem cli_command_dispatch (sp raw : String) (api : ApiResult) (ms : List Message) :
    (pyLower (pyStrip raw) ∈ exitCommands →
      cliStep sp raw api ms = ⟨ms, true, false⟩) ∧
    (pyStartswith raw "/reset" = true →
      cliStep sp raw api ms = ⟨[systemMessage sp], false, false⟩) := by
  constructor
  · intro h
    have hne : pyStrip raw ≠ "" := by
      intro h0
      rw [h0] at h
      exact absurd h (by decide)
    simp [cliStep, hne, h]
  · intro h
    obtain ⟨s, hs⟩ := pyStrip_of_startswith_reset raw h
    apply cliStep_reset_branch
    rw [hs, pyLower_reset]
    unfold pyStartswith
    exact List.isPrefixOf_iff_prefix.mpr (List.prefix_append _ _)

theorem cli_command_dispatch_witness :
    cliStep "p" " /Quit" .failure [systemMessage "p"] =
      ⟨[systemMessage "p"], true, false⟩ ∧
    cliStep "p" "/reset now" .failure [systemMessage "p"] =
      ⟨[systemMessage "p"], false, false⟩ :=
  ⟨(cli_command_dispatch "p" " /Quit" .failure [systemMessage "p"]).1 (by decide),
   (cli_command_dispatch "p" "/reset now" .failure [systemMessage "p"]).2 (by decide)⟩

/-- **C9**: a CLI input that strips to the empty string (empty or
whitespace-only) skips the turn entirely: the conversation is unchanged, no
API call is made, and the loop continues. -/
theorem cli_empty_input_skips (sp raw : String) (api : ApiResult) (ms : List Message)
    (h : pyStrip raw = "") :
    cliStep sp raw api ms = ⟨ms, false, false⟩ := by
  simp [cliStep, h]

theorem cli_empty_input_skips_witness :
    cliStep "p" "   " .failure [systemMessage "p"] = ⟨[systemMessage "p"], false, false⟩ :=
  cli_empty_input_skips "p" "   " .failure [systemMessage "p"] (by decide)

/-- **C6**: applying the reset operation to any conversation state yields
exactly the single-element sequence containing the system/persona message, in
both the CLI and the UI variants. -/
theorem reset_yields_system_only (sp : String) (api : ApiResult) (ms : List Message) :
    (cliStep sp "/reset" api ms).messages = [systemMessage sp] ∧
    uiReset sp = [systemMessage sp] :=
  ⟨by rw [cliStep_reset_branch sp "/reset" api ms (by decide)], rfl⟩

/-! ## Error handling on a failed chat-completion call -/

/-- **C3 counterexample**: in the UI variant a failed streaming call does NOT
discard the pending user message — `_run_chat` has no exception handler, so
after the failed turn the session conversation is one element longer than
before the user message was appended. -/
theorem ui_failure_keeps_pending_user :
    (uiStep "hi" (.failure []) [systemMessage "p"]).length ≠
      ([systemMessage "p"] : List Message).length := by decide

/-- **C3 (amended)**: on a failed chat-completion call during a normal user
turn, the CLI variant pops the pending user message, so the conversation is
exactly what it was before the turn and the session continues; the UI variant
has no handler, so the pending user message remains appended. -/
theorem error_turn_outcome (sp raw prompt : String) (cs : List (Option String))
    (ms : List Message)
    (h1 : pyStrip raw ≠ "") (h2 : pyLower (pyStrip raw) ∉ exitCommands)
    (h3 : pyStartswith (pyLower (pyStrip raw)) "/reset" = false) :
    (cliStep sp raw .failure ms).messages = ms ∧
    (cliStep sp raw .failure ms).exited = false ∧
    uiStep prompt (.failure cs) ms = ms ++ [⟨"user", prompt⟩] := by
  refine ⟨?_, ?_, rfl⟩ <;>
    simp [cliStep, h1, h2, h3, List.dropLast_concat]

theorem error_turn_outcome_witness :
    (cliStep "p" "hello" .failure [systemMessage "p"]).messages = [systemMessage "p"] ∧
    (cliStep "p" "hello" .failure [systemMessage "p"]).exited = false ∧
    uiStep "hi" (.failure []) [systemMessage "p"] =
      [systemMessage "p"] ++ [⟨"user", "hi"⟩] :=
  error_turn_outcome "p" "hello" "hi" [] [systemMessage "p"]
    (by decide) (by decide) (by decide)

/-! ## The head-of-conversation invariant -/

lemma trimMessages_head_cons (T K : Nat) (m : Message) (tl : List Message) :
    (trimMessages T K (m :: tl)).head? = some m := by
  unfold trimMessages
  split
  · simp
  · rfl

lemma cliStep_preserves_head (sp raw : String) (api : ApiResult) (m : Message)
    (tl : List Message) :
    ((cliStep sp raw api (m :: tl)).messages).head? = some m ∨
    (cliStep sp raw api (m :: tl)).messages = [systemMessage sp] := by
  cases api with
  | success reply =>
    simp only [cliStep]
    split
    · exact .inl rfl
    split
    · exact .inl rfl
    split
    · exact .inr rfl
    · exact .inl (trimMessages_head_cons _ _ _ _)
  | failure =>
    simp only [cliStep]
    split
    · exact .inl rfl
    split
    · exact .inl rfl
    split
    · exact .inr rfl
    · left
      show ((m :: tl) ++ [(⟨"user", pyStrip raw⟩ : Message)]).dropLast.head? = some m
      rw [List.dropLast_concat]
      rfl

lemma uiStep_preserves_head (prompt : String) (api : UiApiResult) (m : Message)
    (tl : List Message) :
    (uiStep prompt api (m :: tl)).head? = some m := by
  cases api with
  | failure cs => rfl
  | success chunks => exact trimMessages_head_cons _ _ _ _

/-- **C2**: from the initial state `[system message]`, every conversation
state reachable by the operations of either variant (append of a user or
assistant message with trimming, reset, error rollback) still has the fixed
system/persona message as element 0 — it is never evicted. -/
theorem conversation_head_invariant (sp : String) :
    (∀ ms, ReachableCli sp ms → ms.head? = some (systemMessage sp)) ∧
    (∀ ms, ReachableUi sp ms → ms.head? = some (systemMessage sp)) := by
  constructor
  · intro ms h
    induction h with
    | init => rfl
    | step raw api h ih =>
      rename_i ms
      cases ms with
      | nil => simp at ih
      | cons x tl =>
        have hx : x = systemMessage sp := by simpa using ih
        subst hx
        rcases cliStep_preserves_head sp raw api (systemMessage sp) tl with h1 | h1
        · exact h1
        · rw [h1]; rfl
  · intro ms h
    induction h with
    | init => rfl
    | step prompt api h ih =>
      rename_i ms
      cases ms with
      | nil => simp at ih
      | cons x tl =>
        have hx : x = systemMessage sp := by simpa using ih
        subst hx
        exact uiStep_preserves_head prompt api (systemMessage sp) tl
    | reset h ih => rfl

theorem conversation_head_invariant_witness :
    ([systemMessage "p"] : List Message).head? = some (systemMessage "p") :=
  (conversation_head_invariant "p").1 [systemMessage "p"] ReachableCli.init

/-! ## Streaming assembly -/

lemma streamYield_eq_filter (chunks : List (Option String)) :
    streamYield chunks = (chunks.filterMap id).filter fun s => decide (s ≠ "") := by
  induction chunks with
  | nil => rfl
  | cons c rest ih =>
    cases c with
    | none => simpa [streamYield, List.filterMap_cons] using ih
    | some s =>
      by_cases hs : s = "" <;>
        simp_all [streamYield, List.filterMap_cons, List.filter_cons]

/-- **C10**: in the UI variant, the assistant message appended after a
successful streaming call has content equal to the left-to-right concatenation
of exactly the non-empty content fragments of the stream, in order. -/
theorem streaming_assembly (prompt : String) (chunks : List (Option String))
    (ms : List Message) :
    uiStep prompt (.success chunks) ms =
      trimMessages 40 38 ((ms ++ [⟨"user", prompt⟩]) ++
        [⟨"assistant", String.join ((chunks.filterMap id).filter fun s => decide (s ≠ ""))⟩]) := by
  show trimMessages 40 38 _ = _
  rw [← streamYield_eq_filter]
  rfl

/-! ## Quiz scoring -/

lemma question_labels (qi : Nat) (p : String × String)
    (hp : p ∈ (QUESTIONS.getD qi ⟨"", []⟩).options) : p.2 ∈ boroughs := by
  rcases qi with _ | _ | _ | _ | n
  · simp only [QUESTIONS, List.getD_cons_zero, List.getD_cons_succ, List.mem_cons,
      List.not_mem_nil, or_false] at hp
    rcases hp with rfl | rfl | rfl | rfl | rfl <;> decide
  · simp only [QUESTIONS, List.getD_cons_zero, List.getD_cons_succ, List.mem_cons,
      List.not_mem_nil, or_false] at hp
    rcases hp with rfl | rfl | rfl | rfl | rfl <;> decide
  · simp only [QUESTIONS, List.getD_cons_zero, List.getD_cons_succ, List.mem_cons,
      List.not_mem_nil, or_false] at hp
    rcases hp with rfl | rfl | rfl | rfl | rfl <;> decide
  · simp only [QUESTIONS, List.getD_cons_zero, List.getD_cons_succ, List.mem_cons,
      List.not_mem_nil, or_false] at hp
    rcases hp with rfl | rfl | rfl | rfl | rfl <;> decide
  · have hq : QUESTIONS.getD (n + 4) ⟨"", []⟩ = ⟨"", []⟩ := rfl
    rw [hq] at hp
    simp at hp

lemma validFrom_labels (answers : List String) :
    ∀ qi, validFrom qi answers = true →
      ∃ ls, labelsFrom qi answers = some ls ∧ ls.length = answers.length ∧
        ∀ b ∈ ls, b ∈ boroughs := by
  induction answers with
  | nil => exact fun qi _ => ⟨[], rfl, rfl, by simp⟩
  | cons a rest ih =>
    intro qi h
    simp only [validFrom, Bool.and_eq_true] at h
    obtain ⟨h1, h2⟩ := h
    obtain ⟨p, hp, hpa⟩ := List.any_eq_true.mp h1
    have hfind : ((QUESTIONS.getD qi ⟨"", []⟩).options.find? fun q => decide (q.1 = a)).isSome
        = true := List.find?_isSome.mpr ⟨p, hp, hpa⟩
    obtain ⟨q, hq⟩ := Option.isSome_iff_exists.mp hfind
    have hlb : lookupBorough qi a = some q.2 := by
      simp only [lookupBorough, hq, Option.map_some']
    obtain ⟨ls, hls, hlen, hbs⟩ := ih (qi + 1) h2
    refine ⟨q.2 :: ls, ?_, by simp [hlen], ?_⟩
    · simp only [labelsFrom, hlb, hls]
    · intro b hb
      rcases List.mem_cons.mp hb with rfl | hb
      · exact question_labels qi q (List.mem_of_find?_eq_some hq)
      · exact hbs b hb

lemma scoreAnswers_eq_counts (answers : List String) :
    ∀ (qi : Nat) (ls : List String) (f : String → Nat),
      labelsFrom qi answers = some ls → (∀ b ∈ ls, b ∈ boroughs) →
      scoreAnswers qi answers (boroughs.map fun b => (b, f b)) =
        some (boroughs.map fun b => (b, f b + ls.count b)) := by
  induction answers with
  | nil =>
    intro qi ls f h _
    simp only [labelsFrom, Option.some.injEq] at h
    subst h
    simp [scoreAnswers]
  | cons a rest ih =>
    intro qi ls f h hb
    rcases hlb : lookupBorough qi a with _ | b
    · simp only [labelsFrom, hlb] at h
      exact Option.noConfusion h
    · rcases hrest : labelsFrom (qi + 1) rest with _ | bs
      · simp only [labelsFrom, hlb, hrest] at h
        exact Option.noConfusion h
      · simp only [labelsFrom, hlb, hrest, Option.some.injEq] at h
        subst h
        have hbB : b ∈ boroughs := hb b (List.mem_cons_self b bs)
        have hany : (boroughs.map fun x => (x, f x)).any (fun p => decide (p.1 = b)) = true :=
          List.any_eq_true.mpr ⟨(b, f b), List.mem_map.mpr ⟨b, hbB, rfl⟩, by simp⟩
        have hbump : bump (boroughs.map fun x => (x, f x)) b =
            boroughs.map fun x => (x, if x = b then f x + 1 else f x) := by
          rw [bump, List.map_map]
          congr 1
          funext x
          by_cases hx : x = b <;> simp [hx]
        have hcnt : (fun x : String => (x, (if x = b then f x + 1 else f x) + bs.count x)) =
            (fun x : String => (x, f x + (b :: bs).count x)) := by
          funext x
          by_cases hx : x = b
          · subst hx
            simp [List.count_cons]
            omega
          · simp [List.count_cons, beq_eq_false_iff_ne.mpr (Ne.symm hx), hx]
        simp only [scoreAnswers, hlb]
        rw [if_pos hany, hbump,
          ih (qi + 1) bs (fun x => if x = b then f x + 1 else f x) hrest
            (fun x hx => hb x (List.mem_cons_of_mem _ hx)),
          hcnt]

lemma le_foldl_max_init (l : List Nat) : ∀ i : Nat, i ≤ l.foldl max i := by
  induction l with
  | nil => exact fun i => le_refl i
  | cons a l ih => exact fun i => le_trans (le_max_left i a) (ih (max i a))

lemma le_foldl_max_of_mem (l : List Nat) : ∀ i a : Nat, a ∈ l → a ≤ l.foldl max i := by
  induction l with
  | nil =>
    intro i a ha
    cases ha
  | cons b l ih =>
    intro i a ha
    rcases List.mem_cons.mp ha with rfl | ha
    · exact le_trans (le_max_right i a) (le_foldl_max_init l (max i a))
    · exact ih (max i b) a ha

lemma foldl_max_le (l : List Nat) :
    ∀ i c : Nat, (∀ a ∈ l, a ≤ c) → i ≤ c → l.foldl max i ≤ c := by
  induction l with
  | nil => exact fun i c _ hi => hi
  | cons a l ih =>
    intro i c h hi
    exact ih (max i a) c (fun x hx => h x (List.mem_cons_of_mem _ hx))
      (max_le hi (h a (List.mem_cons_self a l)))

lemma foldl_pickMax_spec (ps : List (String × Nat)) :
    ∀ p : String × Nat,
      ps.foldl pickMax p ∈ p :: ps ∧
      (∀ q ∈ p :: ps, q.2 ≤ (ps.foldl pickMax p).2) ∧
      (p :: ps).find? (fun q => decide ((ps.foldl pickMax p).2 ≤ q.2)) =
        some (ps.foldl pickMax p) := by
  induction ps with
  | nil =>
    intro p
    refine ⟨List.mem_cons_self p [], ?_, ?_⟩
    · intro q hq
      rcases List.mem_cons.mp hq with rfl | hq
      · exact le_refl _
      · cases hq
    · exact List.find?_cons_of_pos _ (by simp)
  | cons q ps ih =>
    intro p
    rw [List.foldl_cons]
    by_cases hpq : p.2 < q.2
    · rw [show pickMax p q = q by rw [pickMax, if_pos hpq]]
      obtain ⟨h1, h2, h3⟩ := ih q
      have hq2 : q.2 ≤ (ps.foldl pickMax q).2 := h2 q (List.mem_cons_self q ps)
      refine ⟨List.mem_cons_of_mem p h1, ?_, ?_⟩
      · intro r hr
        rcases List.mem_cons.mp hr with rfl | hr
        · omega
        · exact h2 r hr
      · rw [List.find?_cons_of_neg]
        · exact h3
        · simp only [decide_eq_true_eq, not_le]
          omega
    · rw [show pickMax p q = p by rw [pickMax, if_neg hpq]]
      obtain ⟨h1, h2, h3⟩ := ih p
      have hp2 : p.2 ≤ (ps.foldl pickMax p).2 := h2 p (List.mem_cons_self p ps)
      refine ⟨?_, ?_, ?_⟩
      · rcases List.mem_cons.mp h1 with h | h
        · rw [h]
          exact List.mem_cons_self p _
        · exact List.mem_cons_of_mem p (List.mem_cons_of_mem q h)
      · intro r hr
        rcases List.mem_cons.mp hr with rfl | hr
        · exact hp2
        · rcases List.mem_cons.mp hr with rfl | hr
          · omega
          · exact h2 r (List.mem_cons_of_mem p hr)
      · by_cases hp0 : (ps.foldl pickMax p).2 ≤ p.2
        · rw [List.find?_cons_of_pos _ (by simpa using hp0)] at h3
          rw [List.find?_cons_of_pos _ (by simpa using hp0)]
          exact h3
        · rw [List.find?_cons_of_neg _ (by simpa using hp0)] at h3
          rw [List.find?_cons_of_neg _ (by simpa using hp0), List.find?_cons_of_neg]
          · exact h3
          · simp only [decide_eq_true_eq, not_le]
            omega

lemma argmaxFirst_spec (scores : List (String × Nat)) (h : scores ≠ []) :
    ∃ m : String × Nat, argmaxFirst scores = some m.1 ∧ m ∈ scores ∧
      (∀ q ∈ scores, q.2 ≤ m.2) ∧
      scores.find? (fun q => decide (m.2 ≤ q.2)) = some m := by
  cases scores with
  | nil => exact absurd rfl h
  | cons p ps =>
    obtain ⟨h1, h2, h3⟩ := foldl_pickMax_spec ps p
    exact ⟨ps.foldl pickMax p, rfl, h1, h2, h3⟩

lemma quizResult_spec (answers labels : List String)
    (hl : labelsOf answers = some labels) (hb : ∀ b ∈ labels, b ∈ boroughs) :
    ∃ r, quizResult answers = some r ∧ r ∈ boroughs ∧
      (∀ b ∈ boroughs, labels.count b ≤ labels.count r) ∧
      labels.count r = maxCount labels ∧
      boroughs.find? (fun b => decide (maxCount labels ≤ labels.count b)) = some r ∧
      scoreAnswers 0 answers (BOROUGH_DESCRIPTIONS.map fun p => (p.1, 0)) =
        some (boroughs.map fun b => (b, labels.count b)) := by
  have hinit : (BOROUGH_DESCRIPTIONS.map fun p => (p.1, 0)) =
      boroughs.map fun b => (b, (fun _ : String => 0) b) := by
    rw [boroughs, List.map_map]
    rfl
  have hscore : scoreAnswers 0 answers (BOROUGH_DESCRIPTIONS.map fun p => (p.1, 0)) =
      some (boroughs.map fun b => (b, labels.count b)) := by
    rw [hinit, scoreAnswers_eq_counts answers 0 labels (fun _ => 0) hl hb]
    simp
  have hne : boroughs.map (fun b => (b, labels.count b)) ≠ [] := by
    simp [boroughs, BOROUGH_DESCRIPTIONS]
  obtain ⟨m, hm1, hm2, hm3, hm4⟩ :=
    argmaxFirst_spec (boroughs.map fun b => (b, labels.count b)) hne
  obtain ⟨r, hrB, rfl⟩ := List.mem_map.mp hm2
  have hmax : ∀ b ∈ boroughs, labels.count b ≤ labels.count r := fun b hbB =>
    hm3 (b, labels.count b) (List.mem_map.mpr ⟨b, hbB, rfl⟩)
  have hcmax : labels.count r = maxCount labels := by
    simp only [maxCount]
    apply le_antisymm
    · exact le_foldl_max_of_mem _ 0 _ (List.mem_map.mpr ⟨r, hrB, rfl⟩)
    · apply foldl_max_le
      · intro a ha
        obtain ⟨b, hbB, rfl⟩ := List.mem_map.mp ha
        exact hmax b hbB
      · exact Nat.zero_le _
  have hres : quizResult answers = some r := by
    simp only [quizResult, hscore]
    simpa using hm1
  have hfind : boroughs.find? (fun b => decide (maxCount labels ≤ labels.count b)) = some r := by
    rw [← hcmax]
    have h4 := hm4
    rw [List.find?_map] at h4
    obtain ⟨b0, hb0, hgb0⟩ := Option.map_eq_some'.mp h4
    have hb0r : b0 = r := congrArg Prod.fst hgb0
    subst hb0r
    exact hb0
  exact ⟨r, hres, hrB, hmax, hcmax, hfind, hscore⟩

/-- **C4**: for every answer list in which each answer is an option text of its
question, the scorer tallies one point per answer to that option's borough
label and returns a label of maximum count; in particular, for any answer list
whose labels are `[A, A, B]`, the result is `A`. -/
theorem quiz_plurality (answers : List String) (hv : validFrom 0 answers = true) :
    ∃ labels r,
      labelsOf answers = some labels ∧
      scoreAnswers 0 answers (BOROUGH_DESCRIPTIONS.map fun p => (p.1, 0)) =
        some (boroughs.map fun b => (b, labels.count b)) ∧
      quizResult answers = some r ∧
      r ∈ boroughs ∧
      (∀ b ∈ boroughs, labels.count b ≤ labels.count r) ∧
      (∀ A B : String, labels = [A, A, B] → r = A) := by
  obtain ⟨labels, hl, hlen, hbs⟩ := validFrom_labels answers 0 hv
  obtain ⟨r, hres, hrB, hmax, hcmax, hfind, hscore⟩ := quizResult_spec answers labels hl hbs
  refine ⟨labels, r, hl, hscore, hres, hrB, hmax, ?_⟩
  intro A B hAB
  subst hAB
  have hA : A ∈ boroughs := hbs A (by simp)
  have h2 : 2 ≤ List.count A [A, A, B] := by
    by_cases hBA : B = A <;> simp [List.count_cons, beq_iff_eq, hBA]
  by_contra hne
  have hrc : List.count r [A, A, B] ≤ 1 := by
    have hAr : ¬(A = r) := fun hx => hne (hx.symm)
    by_cases hBr : B = r <;> simp [List.count_cons, beq_iff_eq, hAr, hBr]
  have hle := hmax A hA
  omega

theorem quiz_plurality_witness :
    ∃ labels r,
      labelsOf ["Non-stop action, events, and seeing it all.",
        "A fancy meal or the latest trendy restaurant.",
        "Okay in specific doses, like a cool concert or market."] = some labels ∧
      scoreAnswers 0 ["Non-stop action, events, and seeing it all.",
        "A fancy meal or the latest trendy restaurant.",
        "Okay in specific doses, like a cool concert or market."]
        (BOROUGH_DESCRIPTIONS.map fun p => (p.1, 0)) =
        some (boroughs.map fun b => (b, labels.count b)) ∧
      quizResult ["Non-stop action, events, and seeing it all.",
        "A fancy meal or the latest trendy restaurant.",
        "Okay in specific doses, like a cool concert or market."] = some r ∧
      r ∈ boroughs ∧
      (∀ b ∈ boroughs, labels.count b ≤ labels.count r) ∧
      (∀ A B : String, labels = [A, A, B] → r = A) :=
  quiz_plurality _ (by decide)

/-- **C5**: when two or more borough labels are tied for the maximum tally,
the scorer returns the tied label appearing first in the borough table's
iteration (insertion) order: Manhattan, Brooklyn, Queens, Bronx, Staten
Island — i.e. `max(scores, key=scores.get)` is the first key attaining the
maximum. -/
theorem quiz_tiebreak (answers labels : List String)
    (hv : validFrom 0 answers = true)
    (hl : labelsOf answers = some labels)
    (_htie : ∃ b1 ∈ boroughs, ∃ b2 ∈ boroughs, b1 ≠ b2 ∧
      labels.count b1 = maxCount labels ∧ labels.count b2 = maxCount labels) :
    quizResult answers =
      boroughs.find? fun b => decide (maxCount labels ≤ labels.count b) := by
  obtain ⟨labels', hl', hlen, hbs⟩ := validFrom_labels answers 0 hv
  have hl2 : labelsOf answers = some labels' := hl'
  rw [hl] at hl2
  obtain rfl : labels = labels' := Option.some.inj hl2
  obtain ⟨r, hres, hrB, hmax, hcmax, hfind, hscore⟩ := quizResult_spec answers labels hl hbs
  rw [hres, hfind]

theorem quiz_tiebreak_witness :
    quizResult ["Exploring cool new spots, art, and unique eats.",
      "A fancy meal or the latest trendy restaurant."] =
      boroughs.find? fun b =>
        decide (maxCount ["Brooklyn", "Manhattan"] ≤ ["Brooklyn", "Manhattan"].count b) :=
  quiz_tiebreak _ ["Brooklyn", "Manhattan"] (by decide) (by decide) (by decide)

/-- **C8**: for every answer list in which each answer is an option text of its
question, the scoring computation is total: the option-to-label lookup
succeeds for every answer, every tallied label is a key of the borough table,
the result is one of the five borough labels, and the description lookup for
the result succeeds. -/
theorem quiz_totality (answers : List String) (hv : validFrom 0 answers = true) :
    ∃ labels r,
      labelsOf answers = some labels ∧
      labels.length = answers.length ∧
      (∀ b ∈ labels, b ∈ boroughs) ∧
      quizResult answers = some r ∧
      r ∈ boroughs ∧
      (boroughDescription r).isSome = true := by
  obtain ⟨labels, hl, hlen, hbs⟩ := validFrom_labels answers 0 hv
  obtain ⟨r, hres, hrB, -, -, -, -⟩ := quizResult_spec answers labels hl hbs
  refine ⟨labels, r, hl, hlen, hbs, hres, hrB, ?_⟩
  have hall : ∀ b ∈ boroughs, (boroughDescription b).isSome = true := by decide
  exact hall r hrB

theorem quiz_totality_witness :
    ∃ labels r,
      labelsOf ["Chilling at home, quiet, prefer my own space.",
        "Authentic global cuisine from a hidden gem.",
        "Honestly, I\x27d rather avoid them.",
        "Laid-back, casual, no-fuss."] = some labels ∧
      labels.length = (["Chilling at home, quiet, prefer my own space.",
        "Authentic global cuisine from a hidden gem.",
        "Honestly, I\x27d rather avoid them.",
        "Laid-back, casual, no-fuss."] : List String).length ∧
      (∀ b ∈ labels, b ∈ boroughs) ∧
      quizResult ["Chilling at home, quiet, prefer my own space.",
        "Authentic global cuisine from a hidden gem.",
        "Honestly, I\x27d rather avoid them.",
        "Laid-back, casual, no-fuss."] = some r ∧
      r ∈ boroughs ∧
      (boroughDescription r).isSome = true :=
  quiz_totality _ (by decide)
